import Mathlib

/-!
Verification of the unit-remapping core of the uniUnit repository
(src/uniunit/uniunit.py), shallowly embedded in Lean 4.

Python dictionaries keyed by strings are modelled as association lists with
Python dict semantics (first matching key wins on lookup, assignment replaces
in place or appends). Pint units are modelled symbolically as canonical
containers of (unit name, integer exponent) pairs; the external pint registry
is modelled as a finite table mapping a parse name to its canonical name, its
base-dimension signature and its multiplicative scale to the SI base.
Magnitudes are rationals; code that can raise a Python exception returns
Option, with exceptions propagating as none.
-/

set_option autoImplicit false
set_option linter.unusedVariables false

namespace UniUnit

/-- Lookup in a Python dict modelled as an association list: the first entry
whose key matches wins (keys are unique by construction of dictInsert). -/
def dictGet {κ α : Type} [DecidableEq κ] (k : κ) : List (κ × α) → Option α
  | [] => none
  | (k1, v) :: rest => if k1 = k then some v else dictGet k rest

/-- Assignment d[k] = v in a Python dict: replaces the value in place when the
key is present (keeping its position, as CPython dicts do), appends otherwise. -/
def dictInsert {κ α : Type} [DecidableEq κ] (k : κ) (v : α) : List (κ × α) → List (κ × α)
  | [] => [(k, v)]
  | (k1, v1) :: rest => if k1 = k then (k1, v) :: rest else (k1, v1) :: dictInsert k v rest

/-- Multiplication on the rationals, computed through mkRat so that the
kernel can evaluate it on literals; proved equal to the field multiplication
in qmul_eq. -/
def qmul (a b : ℚ) : ℚ := mkRat (a.num * b.num) (a.den * b.den)

/-- Division on the rationals, computed through mkRat so that the kernel can
evaluate it on literals; proved equal to the field division in qdiv_eq. -/
def qdiv (a b : ℚ) : ℚ :=
  if 0 ≤ b.num then mkRat (a.num * b.den) (a.den * b.num.toNat)
  else mkRat (-(a.num * b.den)) (a.den * (-b.num).toNat)

/-- Natural power on the rationals through qmul. -/
def qpowNat (a : ℚ) : Nat → ℚ
  | 0 => 1
  | n + 1 => qmul (qpowNat a n) a

/-- Integer power on the rationals through qmul and qdiv. -/
def qzpow (a : ℚ) : Int → ℚ
  | .ofNat n => qpowNat a n
  | .negSucc n => qdiv 1 (qpowNat a (n + 1))

theorem qmul_eq (a b : ℚ) : qmul a b = a * b := by
  rw [qmul, Rat.mkRat_eq_divInt, Rat.divInt_eq_div]
  conv_rhs => rw [← Rat.num_div_den a, ← Rat.num_div_den b]
  rw [div_mul_div_comm]
  push_cast
  ring

theorem qdiv_eq (a b : ℚ) : qdiv a b = a / b := by
  by_cases hb : b = 0
  · subst hb
    simp [qdiv, Rat.mkRat_eq_divInt]
  · have hbn : b.num ≠ 0 := Rat.num_ne_zero.2 hb
    have had : ((a.den : ℚ)) ≠ 0 := Nat.cast_ne_zero.2 a.den_pos.ne'
    have hbd : ((b.den : ℚ)) ≠ 0 := Nat.cast_ne_zero.2 b.den_pos.ne'
    have hbnq : ((b.num : ℚ)) ≠ 0 := Int.cast_ne_zero.2 hbn
    by_cases h0 : 0 ≤ b.num
    · rw [qdiv, if_pos h0, Rat.mkRat_eq_divInt, Rat.divInt_eq_div]
      push_cast [Int.toNat_of_nonneg h0]
      conv_rhs => rw [← Rat.num_div_den a, ← Rat.num_div_den b]
      field_simp
    · rw [qdiv, if_neg h0, Rat.mkRat_eq_divInt, Rat.divInt_eq_div]
      push_cast [Int.toNat_of_nonneg (by omega : (0 : ℤ) ≤ -b.num)]
      conv_rhs => rw [← Rat.num_div_den a, ← Rat.num_div_den b]
      field_simp

theorem qpowNat_eq (a : ℚ) (n : Nat) : qpowNat a n = a ^ n := by
  induction n with
  | zero => simp [qpowNat]
  | succ n ih => simp [qpowNat, qmul_eq, pow_succ, ih]

theorem qzpow_eq (a : ℚ) (k : Int) : qzpow a k = a ^ k := by
  cases k with
  | ofNat n => simp [qzpow, qpowNat_eq, zpow_natCast]
  | negSucc n => simp [qzpow, qdiv_eq, qpowNat_eq, zpow_negSucc, one_div]

/-- Units container: the symbolic form of a pint unit, a product of named
units raised to integer exponents. Kept canonical (keys strictly sorted,
exponents nonzero) by the operations below. -/
abbrev UC := List (String × Int)

/-- Merge one (name, exponent) component into a canonical container,
adding exponents of equal names and dropping zero exponents. -/
def insertComp (n : String) (e : Int) : UC → UC
  | [] => if e = 0 then [] else [(n, e)]
  | (m, f) :: rest =>
    if n < m then (if e = 0 then (m, f) :: rest else (n, e) :: (m, f) :: rest)
    else if n = m then (if e + f = 0 then rest else (n, e + f) :: rest)
    else (m, f) :: insertComp n e rest

/-- Product of two unit containers (pint unit multiplication). -/
def ucMul (a b : UC) : UC := b.foldl (fun acc p => insertComp p.1 p.2 acc) a

/-- Integer power of a unit container (pint unit exponentiation);
the zeroth power is the dimensionless unit. -/
def ucPow (u : UC) (k : Int) : UC :=
  if k = 0 then [] else u.map (fun p => (p.1, p.2 * k))

/-- One entry of the modelled pint registry: the canonical unit name the
parser resolves to, the base-dimension signature of the unit, and its
multiplicative scale factor to the SI base units. -/
structure UnitDef where
  canonical : String
  dims : UC
  scale : ℚ
deriving DecidableEq, Repr

/-- Modelled pint unit registry (external collaborator of the core): the
units and symbol aliases that the repository tables and tests rely on.
Symbols resolve to their canonical name exactly as pint does. -/
def UREG : List (String × UnitDef) := [
  ("kilogram", ⟨"kilogram", [("[mass]", 1)], 1⟩),
  ("kg", ⟨"kilogram", [("[mass]", 1)], 1⟩),
  ("gram", ⟨"gram", [("[mass]", 1)], mkRat 1 1000⟩),
  ("g", ⟨"gram", [("[mass]", 1)], mkRat 1 1000⟩),
  ("milligram", ⟨"milligram", [("[mass]", 1)], mkRat 1 1000000⟩),
  ("mg", ⟨"milligram", [("[mass]", 1)], mkRat 1 1000000⟩),
  ("microgram", ⟨"microgram", [("[mass]", 1)], mkRat 1 1000000000⟩),
  ("ug", ⟨"microgram", [("[mass]", 1)], mkRat 1 1000000000⟩),
  ("pound", ⟨"pound", [("[mass]", 1)], mkRat 45359237 100000000⟩),
  ("meter", ⟨"meter", [("[length]", 1)], 1⟩),
  ("m", ⟨"meter", [("[length]", 1)], 1⟩),
  ("centimeter", ⟨"centimeter", [("[length]", 1)], mkRat 1 100⟩),
  ("cm", ⟨"centimeter", [("[length]", 1)], mkRat 1 100⟩),
  ("millimeter", ⟨"millimeter", [("[length]", 1)], mkRat 1 1000⟩),
  ("mm", ⟨"millimeter", [("[length]", 1)], mkRat 1 1000⟩),
  ("nanometer", ⟨"nanometer", [("[length]", 1)], mkRat 1 1000000000⟩),
  ("nm", ⟨"nanometer", [("[length]", 1)], mkRat 1 1000000000⟩),
  ("kilometer", ⟨"kilometer", [("[length]", 1)], 1000⟩),
  ("km", ⟨"kilometer", [("[length]", 1)], 1000⟩),
  ("inch", ⟨"inch", [("[length]", 1)], mkRat 127 5000⟩),
  ("foot", ⟨"foot", [("[length]", 1)], mkRat 381 1250⟩),
  ("second", ⟨"second", [("[time]", 1)], 1⟩),
  ("s", ⟨"second", [("[time]", 1)], 1⟩),
  ("millisecond", ⟨"millisecond", [("[time]", 1)], mkRat 1 1000⟩),
  ("ms", ⟨"millisecond", [("[time]", 1)], mkRat 1 1000⟩),
  ("picosecond", ⟨"picosecond", [("[time]", 1)], mkRat 1 1000000000000⟩),
  ("ps", ⟨"picosecond", [("[time]", 1)], mkRat 1 1000000000000⟩),
  ("minute", ⟨"minute", [("[time]", 1)], 60⟩),
  ("ampere", ⟨"ampere", [("[current]", 1)], 1⟩),
  ("A", ⟨"ampere", [("[current]", 1)], 1⟩),
  ("nanoampere", ⟨"nanoampere", [("[current]", 1)], mkRat 1 1000000000⟩),
  ("kelvin", ⟨"kelvin", [("[temperature]", 1)], 1⟩),
  ("K", ⟨"kelvin", [("[temperature]", 1)], 1⟩),
  ("mole", ⟨"mole", [("[substance]", 1)], 1⟩),
  ("mol", ⟨"mole", [("[substance]", 1)], 1⟩),
  ("nanomole", ⟨"nanomole", [("[substance]", 1)], mkRat 1 1000000000⟩),
  ("candela", ⟨"candela", [("[luminosity]", 1)], 1⟩),
  ("cd", ⟨"candela", [("[luminosity]", 1)], 1⟩),
  ("joule", ⟨"joule", [("[length]", 2), ("[mass]", 1), ("[time]", -2)], 1⟩),
  ("newton", ⟨"newton", [("[length]", 1), ("[mass]", 1), ("[time]", -2)], 1⟩)]

/-- Parsing a single unit name with the registry, as ureg(name) does for a
plain name: the result is the canonical unit raised to the first power, or an
undefined-unit failure (none) for an unknown name. -/
def parseUnit (s : String) : Option UC :=
  (dictGet s UREG).map (fun d => [(d.canonical, 1)])

/-- Base-dimension signature of a single named unit per the registry
(defaulting to dimensionless for names outside the table; containers built by
the model only hold registered canonical names). -/
def unitDims (n : String) : UC := ((dictGet n UREG).map UnitDef.dims).getD []

/-- Multiplicative scale of a single named unit to the SI base units. -/
def unitScale (n : String) : ℚ := ((dictGet n UREG).map UnitDef.scale).getD 1

/-- Dimensionality of a unit container: the product of the base-dimension
signatures of its components, each raised to the component exponent.
This models unit.dimensionality used by get_new_unit (uniunit.py:498-500). -/
def dimOf (u : UC) : UC :=
  u.foldl (fun acc p => ucMul acc (ucPow (unitDims p.1) p.2)) []

/-- Overall scale factor of a unit container to the SI base units. -/
def ucFactor (u : UC) : ℚ :=
  u.foldl (fun acc p => qmul acc (qzpow (unitScale p.1) p.2)) 1

/-- Pint quantity: a rational magnitude paired with a symbolic unit. -/
structure Quantity where
  mag : ℚ
  units : UC
deriving DecidableEq, Repr

/-- Registry conversion routine Quantity.to(target): requires dimensional
compatibility (otherwise pint raises a DimensionalityError, modelled as none)
and rescales the magnitude through the SI base. -/
def Quantity.convertTo (q : Quantity) (target : UC) : Option Quantity :=
  if dimOf q.units = dimOf target then
    some ⟨qdiv (qmul q.mag (ucFactor q.units)) (ucFactor target), target⟩
  else none

/-- Static short-name and full-name to dimension lookup table
(uniunit.py:267-307, SHORT_TO_DIMENSION). -/
def SHORT_TO_DIMENSION : List (String × String) := [
  ("kg", "[mass]"),
  ("g", "[mass]"),
  ("mg", "[mass]"),
  ("ug", "[mass]"),
  ("m", "[length]"),
  ("cm", "[length]"),
  ("mm", "[length]"),
  ("um", "[length]"),
  ("nm", "[length]"),
  ("pm", "[length]"),
  ("fm", "[length]"),
  ("km", "[length]"),
  ("dm", "[length]"),
  ("s", "[time]"),
  ("ms", "[time]"),
  ("us", "[time]"),
  ("ns", "[time]"),
  ("ps", "[time]"),
  ("A", "[current]"),
  ("mA", "[current]"),
  ("uA", "[current]"),
  ("nA", "[current]"),
  ("K", "[temperature]"),
  ("mol", "[amount]"),
  ("mmol", "[amount]"),
  ("kmol", "[amount]"),
  ("cd", "[luminosity]"),
  ("kilogram", "[mass]"),
  ("gram", "[mass]"),
  ("meter", "[length]"),
  ("centimeter", "[length]"),
  ("millimeter", "[length]"),
  ("second", "[time]"),
  ("ampere", "[current]"),
  ("kelvin", "[temperature]"),
  ("mole", "[amount]"),
  ("candela", "[luminosity]")]

/-- Reverse table: dimension to default short base unit name
(uniunit.py:310-318, DIMENSION_TO_SHORT). -/
def DIMENSION_TO_SHORT : List (String × String) := [
  ("[mass]", "kg"),
  ("[length]", "m"),
  ("[time]", "s"),
  ("[current]", "A"),
  ("[temperature]", "K"),
  ("[amount]", "mol"),
  ("[luminosity]", "cd")]

/-- Python str.strip applied with the bracket characters: removes leading and
trailing occurrences of the characters of the set from both ends. -/
def stripBrackets (s : String) : String :=
  let isBr := fun c => c = '[' || c = ']'
  String.mk (((s.toList.dropWhile isBr).reverse.dropWhile isBr).reverse)

/-- Key canonicalization of uniUnit construction (uniunit.py:460):
SHORT_TO_DIMENSION.get(key, key). -/
def canonKey (k : String) : String :=
  (dictGet k SHORT_TO_DIMENSION).getD k

/-- Conversion specification built by uniUnit init (uniunit.py:458-464): each
caller key is resolved through the static table (unrecognized keys pass
through unchanged) and assigned in iteration order; the startswith branch in
the source assigns identically in both arms, so a single assignment is the
faithful model. Later entries overwrite earlier ones whose key resolves to
the same dimension, exactly as repeated dict assignment does. -/
def normalizeSpec (udict : List (String × String)) : List (String × String) :=
  udict.foldl (fun acc p => dictInsert (canonKey p.1) p.2 acc) []

/-- Target unit name lookup chain of _get_target_unit (uniunit.py:481):
the conversion specification first, then the default short name for the
dimension, then the dimension identifier with bracket characters stripped. -/
def targetName (spec : List (String × String)) (dim : String) : String :=
  (dictGet dim spec).getD ((dictGet dim DIMENSION_TO_SHORT).getD (stripBrackets dim))

/-- Loop of _get_target_unit (uniunit.py:479-482): starting from the
dimensionless unit, multiply in the parsed target unit raised to each
exponent; a parse failure raises (none) and propagates. -/
def getTargetUnitAux (spec : List (String × String)) : List (String × Int) → UC → Option UC
  | [], acc => some acc
  | (dim, exp) :: rest, acc =>
    match parseUnit (targetName spec dim) with
    | none => none
    | some u => getTargetUnitAux spec rest (ucMul acc (ucPow u exp))

/-- Cacheless body of _get_target_unit: the pure function of the conversion
specification and the dimension signature tuple. -/
def getTargetUnit (spec : List (String × String)) (sig : UC) : Option UC :=
  getTargetUnitAux spec sig []

/-- Per-instance target unit cache: dimension signature tuple to previously
synthesized composite unit (uniunit.py:466, 476-484). -/
abbrev TargetCache := List (UC × UC)

/-- The cached _get_target_unit (uniunit.py:471-485): return the stored unit
on a hit; otherwise compute, store on success, and return. An exception
escaping the computation leaves the cache unchanged. -/
def getTargetUnitCached (spec : List (String × String)) (cache : TargetCache) (sig : UC) :
    Option UC × TargetCache :=
  match dictGet sig cache with
  | some u => (some u, cache)
  | none =>
    match getTargetUnit spec sig with
    | some u => (some u, dictInsert sig u cache)
    | none => (none, cache)

/-- get_new_unit (uniunit.py:487-503): decompose the unit into its dimension
signature, sort the pairs, and synthesize the target composite unit. -/
def get_new_unit (spec : List (String × String)) (u : UC) : Option UC :=
  getTargetUnit spec (List.insertionSort (fun a b => a.1 ≤ b.1) (dimOf u))

/-- Polymorphic input accepted by to_unit: a quantity, a bare number, or a
(possibly nested) list of inputs; tuples behave as lists. -/
inductive UInput where
  | qty : Quantity → UInput
  | num : ℚ → UInput
  | list : List UInput → UInput
deriving Repr

mutual

/-- to_unit (uniunit.py:505-538): element-wise on sequences, identity on bare
numbers, and conversion to the synthesized target unit on quantities. The
source special-cases quantities of magnitude 1 whose synthesized target is a
plain non-Quantity unit (this happens exactly when the dimension signature is
empty, since the synthesis loop body otherwise turns the running unit into a
Quantity); pint conversion always returns a Quantity, so the isinstance check
inside that branch succeeds and the branch returns the converted result
directly, as modelled here. -/
def to_unit (spec : List (String × String)) : UInput → Option UInput
  | .list items => (to_unitList spec items).map UInput.list
  | .num x => some (.num x)
  | .qty q =>
    match get_new_unit spec q.units with
    | none => none
    | some target =>
      if q.mag = 1 ∧ dimOf q.units = [] then
        match q.convertTo target with
        | none => none
        | some result => some (.qty result)
      else (q.convertTo target).map UInput.qty

/-- List comprehension of to_unit (uniunit.py:521-522): convert each element
in order; an exception from any element propagates. -/
def to_unitList (spec : List (String × String)) : List UInput → Option (List UInput)
  | [] => some []
  | x :: xs =>
    match to_unit spec x with
    | none => none
    | some y => (to_unitList spec xs).map (fun ys => y :: ys)

end

/-- Unit system (uniunit.py:321-357): a named, described wrapper around one
remapper; init stores the name, the raw units mapping and the description,
and builds the remapper from the units mapping. -/
structure UnitSystemM where
  name : String
  units : List (String × String)
  description : String
deriving DecidableEq, Repr

/-- UnitSystem.to_unit (uniunit.py:395-405): delegate to the owned remapper,
whose specification is the normalized units mapping. -/
def UnitSystemM.to_unit (sys : UnitSystemM) (uin : UInput) : Option UInput :=
  UniUnit.to_unit (normalizeSpec sys.units) uin

/-- UnitSystem.convert_from (uniunit.py:411-423): convert with the source
system first, then convert the intermediate result with this system. -/
def UnitSystemM.convert_from (self source : UnitSystemM) (uin : UInput) : Option UInput :=
  (source.to_unit uin).bind self.to_unit

/-- Process-wide preset registry PRESETS (uniunit.py:336): name to stored
units mapping. The source stores only the units dictionary. -/
abbrev PresetRegistry := List (String × List (String × String))

/-- UnitSystem.register_preset (uniunit.py:359-369): assigns the units
mapping under the name; the description argument is accepted by the
signature but does not appear in the stored entry (line 369 stores only
units). -/
def register_preset (name : String) (units : List (String × String))
    (description : String) (reg : PresetRegistry) : PresetRegistry :=
  dictInsert name units reg

/-- Single quote character, for building the not-found message text. -/
def sq : String := String.singleton (Char.ofNat 39)

/-- Available-names text of the not-found message (uniunit.py:386): the
comma-joined registered names, or the word none for an empty registry. -/
def availableNames (reg : PresetRegistry) : String :=
  if reg.isEmpty then "none" else String.intercalate ", " (reg.map Prod.fst)

/-- Full failure detail of the preset not-found KeyError (uniunit.py:387). -/
def presetNotFoundMsg (name : String) (reg : PresetRegistry) : String :=
  "Preset " ++ sq ++ name ++ sq ++ " not found. Available: " ++ availableNames reg

/-- UnitSystem.get_preset (uniunit.py:371-388): raise KeyError with the
listing of available names when absent, otherwise construct a new system
from the stored units; the description takes the constructor default, the
empty string. -/
def get_preset (name : String) (reg : PresetRegistry) : Except String UnitSystemM :=
  match dictGet name reg with
  | none => .error (presetNotFoundMsg name reg)
  | some units => .ok ⟨name, units, ""⟩

/-- uniUnit.get_conversion_factor (uniunit.py:540-560): 1.0 when the argument
is not a key of the stored specification; otherwise convert one unit of the
argument to the mapped target, returning 1.0 if anything in that computation
raises. -/
def get_conversion_factor (spec : List (String × String)) (base_unit_name : String) : ℚ :=
  match dictGet base_unit_name spec with
  | none => 1
  | some target =>
    match parseUnit base_unit_name with
    | none => 1
    | some baseU =>
      match parseUnit target with
      | none => 1
      | some targetU =>
        match Quantity.convertTo ⟨1, baseU⟩ targetU with
        | none => 1
        | some q => q.mag

/-- Statement of the synthesis operation as worded in the specification, for
comparison with the source translation get_new_unit: the synthesized target
composite unit is the product, starting from the dimensionless unit and taken
over the (dimension, exponent) pairs in sorted order, of the parsed target
unit name (resolved through the conversion specification, then the default
short names, then bracket stripping) raised to that exponent. -/
def synthesizeBySpec (spec : List (String × String)) (sig : UC) : Option UC :=
  (List.insertionSort (fun a b => a.1 ≤ b.1) sig).foldl
    (fun acc p => acc.bind
      (fun u => (parseUnit (targetName spec p.1)).map (fun t => ucMul u (ucPow t p.2))))
    (some [])

/-- Cache coherence invariant: every stored entry of the target unit cache
equals what recomputation from the conversion specification alone produces. -/
def CacheWF (spec : List (String × String)) (cache : TargetCache) : Prop :=
  ∀ p ∈ cache, getTargetUnit spec p.1 = some p.2

theorem dictGet_mem {κ α : Type} [DecidableEq κ] {k : κ} {v : α} :
    ∀ {l : List (κ × α)}, dictGet k l = some v → (k, v) ∈ l := by
  intro l
  induction l with
  | nil => intro h; simp [dictGet] at h
  | cons p rest ih =>
    intro h
    rw [dictGet] at h
    by_cases hk : p.1 = k
    · rw [if_pos hk] at h
      have hv : p.2 = v := Option.some_inj.1 h
      exact List.mem_cons.2 (Or.inl (by rw [← hk, ← hv]))
    · rw [if_neg hk] at h
      exact List.mem_cons_of_mem _ (ih h)

theorem dictGet_dictInsert_self {κ α : Type} [DecidableEq κ] (k : κ) (v : α)
    (l : List (κ × α)) : dictGet k (dictInsert k v l) = some v := by
  induction l with
  | nil => simp [dictGet, dictInsert]
  | cons p rest ih =>
    rw [dictInsert]
    by_cases hk : p.1 = k
    · rw [if_pos hk, dictGet, if_pos hk]
    · rw [if_neg hk, dictGet, if_neg hk, ih]

theorem dictGet_dictInsert_ne {κ α : Type} [DecidableEq κ] {d k : κ} (v : α)
    (l : List (κ × α)) (h : d ≠ k) : dictGet d (dictInsert k v l) = dictGet d l := by
  induction l with
  | nil => simp [dictGet, dictInsert, Ne.symm h]
  | cons p rest ih =>
    rw [dictInsert]
    by_cases hk : p.1 = k
    · have hpd : ¬ p.1 = d := fun he => h (by rw [← he]; exact hk)
      rw [if_pos hk, dictGet, dictGet, if_neg hpd, if_neg hpd]
    · rw [if_neg hk, dictGet, dictGet]
      by_cases hd : p.1 = d
      · rw [if_pos hd, if_pos hd]
      · rw [if_neg hd, if_neg hd, ih]

theorem mem_dictInsert {κ α : Type} [DecidableEq κ] {p : κ × α} {k : κ} {v : α} :
    ∀ {l : List (κ × α)}, p ∈ dictInsert k v l → p = (k, v) ∨ p ∈ l := by
  intro l
  induction l with
  | nil => intro h; simp [dictInsert] at h; exact Or.inl h
  | cons q rest ih =>
    intro h
    rw [dictInsert] at h
    by_cases hk : q.1 = k
    · rw [if_pos hk] at h
      rcases List.mem_cons.1 h with h1 | h2
      · exact Or.inl (by rw [h1, hk])
      · exact Or.inr (List.mem_cons_of_mem _ h2)
    · rw [if_neg hk] at h
      rcases List.mem_cons.1 h with h1 | h2
      · exact Or.inr (h1 ▸ List.mem_cons_self q rest)
      · rcases ih h2 with h3 | h4
        · exact Or.inl h3
        · exact Or.inr (List.mem_cons_of_mem _ h4)

theorem UREG_scale_ne_zero : ∀ p ∈ UREG, p.2.scale ≠ 0 := by decide

theorem unitScale_ne_zero (n : String) : unitScale n ≠ 0 := by
  rw [unitScale]
  cases h : dictGet n UREG with
  | none => simp
  | some d =>
    simpa using UREG_scale_ne_zero _ (dictGet_mem h)

theorem ucFactor_foldl_ne_zero (u : UC) :
    ∀ acc : ℚ, acc ≠ 0 →
      u.foldl (fun acc p => qmul acc (qzpow (unitScale p.1) p.2)) acc ≠ 0 := by
  induction u with
  | nil => intro acc h; simpa using h
  | cons p rest ih =>
    intro acc h
    rw [List.foldl_cons]
    refine ih _ ?_
    rw [qmul_eq, qzpow_eq]
    exact mul_ne_zero h (zpow_ne_zero _ (unitScale_ne_zero p.1))

theorem ucFactor_ne_zero (u : UC) : ucFactor u ≠ 0 :=
  ucFactor_foldl_ne_zero u 1 one_ne_zero

theorem norm_foldl_notmem (l : List (String × String)) (d : String)
    (hd : d ∉ l.map (fun p => canonKey p.1)) :
    ∀ acc : List (String × String),
      dictGet d (l.foldl (fun acc p => dictInsert (canonKey p.1) p.2 acc) acc) =
        dictGet d acc := by
  induction l with
  | nil => intro acc; rfl
  | cons p rest ih =>
    intro acc
    simp only [List.map_cons, List.mem_cons] at hd
    push_neg at hd
    rw [List.foldl_cons, ih hd.2, dictGet_dictInsert_ne _ _ hd.1]

theorem norm_foldl_lookup (l : List (String × String)) :
    ∀ (acc : List (String × String)) (d v : String),
      dictGet d (l.foldl (fun acc p => dictInsert (canonKey p.1) p.2 acc) acc) = some v →
      (∃ k, (k, v) ∈ l ∧ canonKey k = d) ∨ dictGet d acc = some v := by
  induction l with
  | nil => intro acc d v h; exact Or.inr h
  | cons p rest ih =>
    intro acc d v h
    rw [List.foldl_cons] at h
    rcases ih _ d v h with h1 | h2
    · obtain ⟨k, hk, hc⟩ := h1
      exact Or.inl ⟨k, List.mem_cons_of_mem _ hk, hc⟩
    · by_cases hdc : d = canonKey p.1
      · subst hdc
        rw [dictGet_dictInsert_self] at h2
        have hv : p.2 = v := Option.some_inj.1 h2
        exact Or.inl ⟨p.1, List.mem_cons.2 (Or.inl (by rw [← hv])), rfl⟩
      · rw [dictGet_dictInsert_ne _ _ hdc] at h2
        exact Or.inr h2

theorem norm_foldl_mem (l : List (String × String))
    (hnd : (l.map (fun p => canonKey p.1)).Nodup) :
    ∀ acc : List (String × String), ∀ p ∈ l,
      dictGet (canonKey p.1) (l.foldl (fun acc p => dictInsert (canonKey p.1) p.2 acc) acc) =
        some p.2 := by
  induction l with
  | nil => intro acc p hp; simp at hp
  | cons q rest ih =>
    intro acc p hp
    rw [List.map_cons, List.nodup_cons] at hnd
    rw [List.foldl_cons]
    rcases List.mem_cons.1 hp with rfl | hmem
    · rw [norm_foldl_notmem rest (canonKey p.1) hnd.1, dictGet_dictInsert_self]
    · exact ih hnd.2 _ p hmem

theorem foldl_synth_none (spec : List (String × String)) (l : List (String × Int)) :
    l.foldl
      (fun acc p => acc.bind
        (fun u => (parseUnit (targetName spec p.1)).map (fun t => ucMul u (ucPow t p.2))))
      none = none := by
  induction l with
  | nil => rfl
  | cons p rest ih => rw [List.foldl_cons, Option.none_bind, ih]

theorem getTargetUnitAux_eq_foldl (spec : List (String × String)) (l : List (String × Int)) :
    ∀ acc : UC,
      getTargetUnitAux spec l acc =
        l.foldl
          (fun acc p => acc.bind
            (fun u => (parseUnit (targetName spec p.1)).map (fun t => ucMul u (ucPow t p.2))))
          (some acc) := by
  induction l with
  | nil => intro acc; rfl
  | cons p rest ih =>
    intro acc
    rw [getTargetUnitAux, List.foldl_cons, Option.some_bind]
    cases h : parseUnit (targetName spec p.1) with
    | none => rw [Option.map_none', foldl_synth_none]
    | some t =>
      rw [Option.map_some']
      exact ih (ucMul acc (ucPow t p.2))

theorem to_unit_qty (spec : List (String × String)) (q : Quantity) :
    to_unit spec (UInput.qty q) =
      (get_new_unit spec q.units).bind
        (fun target => (q.convertTo target).map UInput.qty) := by
  rw [to_unit]
  cases get_new_unit spec q.units with
  | none => rfl
  | some target =>
    show (if q.mag = 1 ∧ dimOf q.units = [] then
        match q.convertTo target with
        | none => none
        | some result => some (UInput.qty result)
      else (q.convertTo target).map UInput.qty) = _
    rw [Option.some_bind]
    by_cases hc : q.mag = 1 ∧ dimOf q.units = []
    · rw [if_pos hc]
      cases q.convertTo target with
      | none => rfl
      | some r => rfl
    · rw [if_neg hc]

theorem convertTo_eq_some {q : Quantity} {t : UC} {r : Quantity}
    (h : q.convertTo t = some r) :
    dimOf q.units = dimOf t ∧
      r = ⟨qdiv (qmul q.mag (ucFactor q.units)) (ucFactor t), t⟩ := by
  rw [Quantity.convertTo] at h
  by_cases hd : dimOf q.units = dimOf t
  · rw [if_pos hd] at h
    exact ⟨hd, (Option.some_inj.1 h).symm⟩
  · rw [if_neg hd] at h
    exact absurd h (by simp)

theorem convertTo_dims_eq {q : Quantity} {t t2 : UC} :
    (⟨qdiv (qmul q.mag (ucFactor q.units)) (ucFactor t), t⟩ : Quantity).convertTo t2 =
      if dimOf t = dimOf t2 then
        some ⟨qdiv (qmul q.mag (ucFactor q.units)) (ucFactor t2), t2⟩
      else none := by
  simp only [Quantity.convertTo]
  by_cases h2 : dimOf t = dimOf t2
  · rw [if_pos h2, if_pos h2]
    have hne : ucFactor t ≠ 0 := ucFactor_ne_zero t
    have hmag : qdiv (qmul (qdiv (qmul q.mag (ucFactor q.units)) (ucFactor t)) (ucFactor t))
        (ucFactor t2) = qdiv (qmul q.mag (ucFactor q.units)) (ucFactor t2) := by
      simp only [qdiv_eq, qmul_eq]
      rw [div_mul_cancel₀ _ hne]
    rw [hmag]
  · rw [if_neg h2, if_neg h2]

theorem to_unit_qty_comp (s t : List (String × String)) (q : Quantity) (mid r : UInput)
    (h1 : to_unit s (UInput.qty q) = some mid)
    (h2 : to_unit t mid = some r) :
    to_unit t (UInput.qty q) = some r := by
  rw [to_unit_qty] at h1
  obtain ⟨t1, ht1, hc1⟩ := Option.bind_eq_some.1 h1
  obtain ⟨q1, hq1, hmid⟩ := Option.map_eq_some'.1 hc1
  obtain ⟨hd1, hq1eq⟩ := convertTo_eq_some hq1
  subst hmid
  rw [to_unit_qty] at h2
  obtain ⟨t2, ht2, hc2⟩ := Option.bind_eq_some.1 h2
  obtain ⟨q2, hq2, hr⟩ := Option.map_eq_some'.1 hc2
  subst hr
  have hq1units : q1.units = t1 := by rw [hq1eq]
  have hgn : get_new_unit t q.units = some t2 := by
    rw [get_new_unit, hq1units] at ht2
    rw [get_new_unit, hd1]
    exact ht2
  rw [hq1eq] at hq2
  rw [convertTo_dims_eq] at hq2
  by_cases h12 : dimOf t1 = dimOf t2
  · rw [if_pos h12] at hq2
    rw [to_unit_qty, hgn, Option.some_bind, Quantity.convertTo,
      if_pos (hd1.trans h12), Option.map_some', Option.some_inj.1 hq2]
  · rw [if_neg h12] at hq2
    exact absurd hq2 (by simp)

theorem to_unitList_comp (s t : List (String × String)) :
    ∀ items : List UInput,
      (∀ x ∈ items, ∀ mid r : UInput,
        to_unit s x = some mid → to_unit t mid = some r → to_unit t x = some r) →
      ∀ mids rs : List UInput,
        to_unitList s items = some mids → to_unitList t mids = some rs →
        to_unitList t items = some rs := by
  intro items
  induction items with
  | nil =>
    intro _ mids rs h1 h2
    rw [to_unitList] at h1
    rw [← Option.some_inj.1 h1] at h2
    exact h2
  | cons x xs ih =>
    intro hel mids rs h1 h2
    rw [to_unitList] at h1
    cases hy : to_unit s x with
    | none => rw [hy] at h1; exact absurd h1 (by simp)
    | some y =>
      rw [hy] at h1
      obtain ⟨ys, hys, hmids⟩ := Option.map_eq_some'.1 h1
      subst hmids
      rw [to_unitList] at h2
      cases hz : to_unit t y with
      | none => rw [hz] at h2; exact absurd h2 (by simp)
      | some z =>
        rw [hz] at h2
        obtain ⟨zs, hzs, hrs⟩ := Option.map_eq_some'.1 h2
        subst hrs
        have hx : to_unit t x = some z :=
          hel x (List.mem_cons_self x xs) y z hy hz
        have hxs : to_unitList t xs = some zs :=
          ih (fun u hu => hel u (List.mem_cons_of_mem _ hu)) ys zs hys hzs
        rw [to_unitList, hx, hxs]
        rfl

theorem to_unit_comp_aux (s t : List (String × String)) :
    ∀ n : Nat, ∀ uin : UInput, sizeOf uin < n → ∀ mid r : UInput,
      to_unit s uin = some mid → to_unit t mid = some r → to_unit t uin = some r := by
  intro n
  induction n with
  | zero => intro uin h; omega
  | succ n ih =>
    intro uin hsz mid r h1 h2
    match uin with
    | .num x =>
      rw [to_unit] at h1
      rw [← Option.some_inj.1 h1] at h2
      exact h2
    | .qty q => exact to_unit_qty_comp s t q mid r h1 h2
    | .list items =>
      rw [to_unit] at h1
      obtain ⟨mids, hmids, hmid⟩ := Option.map_eq_some'.1 h1
      subst hmid
      rw [to_unit] at h2
      obtain ⟨rs, hrs, hr⟩ := Option.map_eq_some'.1 h2
      subst hr
      have hel : ∀ x ∈ items, ∀ mid r : UInput,
          to_unit s x = some mid → to_unit t mid = some r → to_unit t x = some r := by
        intro x hx
        have hx1 : sizeOf x < sizeOf items := List.sizeOf_lt_of_mem hx
        have hx2 : sizeOf (UInput.list items) = 1 + sizeOf items := by simp
        exact ih x (by omega)
      rw [to_unit, to_unitList_comp s t items hel mids rs hmids hrs, Option.map_some']

theorem to_unit_comp (s t : List (String × String)) (uin mid r : UInput)
    (h1 : to_unit s uin = some mid) (h2 : to_unit t mid = some r) :
    to_unit t uin = some r :=
  to_unit_comp_aux s t (sizeOf uin + 1) uin (by omega) mid r h1 h2

theorem to_unitList_elems (spec : List (String × String)) :
    ∀ items out : List UInput, to_unitList spec items = some out →
      out.length = items.length ∧
      ∀ (i : Nat) (hi : i < items.length) (ho : i < out.length),
        to_unit spec (items.get ⟨i, hi⟩) = some (out.get ⟨i, ho⟩) := by
  intro items
  induction items with
  | nil =>
    intro out h
    rw [to_unitList] at h
    rw [← Option.some_inj.1 h]
    exact ⟨rfl, fun i hi ho => absurd hi (by simp)⟩
  | cons x xs ih =>
    intro out h
    rw [to_unitList] at h
    cases hy : to_unit spec x with
    | none => rw [hy] at h; exact absurd h (by simp)
    | some y =>
      rw [hy] at h
      obtain ⟨ys, hys, hout⟩ := Option.map_eq_some'.1 h
      subst hout
      obtain ⟨hlen, helem⟩ := ih ys hys
      refine ⟨by simp [hlen], ?_⟩
      intro i hi ho
      cases i with
      | zero => exact hy
      | succ j =>
        exact helem j (Nat.lt_of_succ_lt_succ hi) (Nat.lt_of_succ_lt_succ ho)

theorem S2D_values_bracket :
    ∀ p ∈ SHORT_TO_DIMENSION, p.2.toList.head? = some (Char.ofNat 91) := by decide

theorem normalizeSpec_bracket_keys (udict : List (String × String))
    (hkeys : ∀ p ∈ udict, (dictGet p.1 SHORT_TO_DIMENSION).isSome = true)
    (name : String) (hname : name.toList.head? ≠ some (Char.ofNat 91)) :
    dictGet name (normalizeSpec udict) = none := by
  cases h : dictGet name (normalizeSpec udict) with
  | none => rfl
  | some v =>
    rcases norm_foldl_lookup udict [] name v h with ⟨k, hk, hck⟩ | habs
    · have hsome := hkeys _ hk
      cases hd : dictGet k SHORT_TO_DIMENSION with
      | none => rw [hd] at hsome; simp at hsome
      | some d =>
        have hdv : d.toList.head? = some (Char.ofNat 91) :=
          S2D_values_bracket _ (dictGet_mem hd)
        have hcd : canonKey k = d := by rw [canonKey, hd]; rfl
        rw [hcd] at hck
        rw [hck] at hdv
        exact absurd hdv hname
    · simp [dictGet] at habs

/-- C1: for every input and every pair of unit systems, whenever
convert_from (convert with the source system, then convert the intermediate
result with this system) produces a result, directly converting the original
input with this system produces the very same result, whatever intermediate
units the source system used. -/
theorem convert_from_eq_direct (self source : UnitSystemM) (uin r : UInput)
    (h : UnitSystemM.convert_from self source uin = some r) :
    UnitSystemM.to_unit self uin = some r := by
  obtain ⟨mid, h1, h2⟩ := Option.bind_eq_some.1 h
  exact to_unit_comp (normalizeSpec source.units) (normalizeSpec self.units) uin mid r h1 h2

/-- Witness for C1: converting 5 kilograms from the mmgms system into the CGS
system in two steps agrees with the direct CGS conversion, both giving
5000 grams. -/
theorem convert_from_eq_direct_witness :
    UnitSystemM.convert_from
        ⟨"CGS", [("kilogram", "gram"), ("meter", "centimeter"), ("second", "second")], ""⟩
        ⟨"mmgms", [("kilogram", "gram"), ("meter", "millimeter"), ("second", "millisecond")], ""⟩
        (UInput.qty ⟨5, [("kilogram", 1)]⟩) =
      some (UInput.qty ⟨5000, [("gram", 1)]⟩) ∧
    UnitSystemM.to_unit
        ⟨"CGS", [("kilogram", "gram"), ("meter", "centimeter"), ("second", "second")], ""⟩
        (UInput.qty ⟨5, [("kilogram", 1)]⟩) =
      some (UInput.qty ⟨5000, [("gram", 1)]⟩) :=
  have h : UnitSystemM.convert_from
      ⟨"CGS", [("kilogram", "gram"), ("meter", "centimeter"), ("second", "second")], ""⟩
      ⟨"mmgms", [("kilogram", "gram"), ("meter", "millimeter"), ("second", "millisecond")], ""⟩
      (UInput.qty ⟨5, [("kilogram", 1)]⟩) =
        some (UInput.qty ⟨5000, [("gram", 1)]⟩) := rfl
  ⟨h, convert_from_eq_direct _ _ _ _ h⟩

/-- C2: the preset registry entry does not carry the description supplied at
registration. register_preset stores only the units mapping, so get_preset
returns a system whose description is the empty constructor default, not the
registered text; evaluated here at a concrete registration. -/
theorem register_preset_drops_description :
    get_preset "X" (register_preset "X" [("kilogram", "gram")] "custom system" []) =
      Except.ok ⟨"X", [("kilogram", "gram")], ""⟩ ∧
    ("" : String) ≠ "custom system" :=
  ⟨rfl, by decide⟩

/-- C3: get_preset on an absent name fails with the not-found message built
from the currently registered names, and on a registered name returns a new
system wrapping the stored specification under that name (with the default
empty description). -/
theorem get_preset_spec (reg : PresetRegistry) (name : String) :
    (dictGet name reg = none →
      get_preset name reg = Except.error (presetNotFoundMsg name reg)) ∧
    (∀ units, dictGet name reg = some units →
      get_preset name reg = Except.ok ⟨name, units, ""⟩) := by
  constructor
  · intro h
    simp [get_preset, h]
  · intro units h
    simp [get_preset, h]

/-- Witness for C3: a two-entry registry; lookup of the unregistered name
Bogus fails with the message listing SI and CGS, and lookup of CGS returns
the stored specification. -/
theorem get_preset_spec_witness :
    (dictGet "Bogus" [("SI", [("kilogram", "kilogram")]), ("CGS", [("kilogram", "gram")])]
        = (none : Option (List (String × String))) ∧
      get_preset "Bogus" [("SI", [("kilogram", "kilogram")]), ("CGS", [("kilogram", "gram")])] =
        Except.error (presetNotFoundMsg "Bogus"
          [("SI", [("kilogram", "kilogram")]), ("CGS", [("kilogram", "gram")])])) ∧
    presetNotFoundMsg "Bogus" [("SI", [("kilogram", "kilogram")]), ("CGS", [("kilogram", "gram")])]
      = "Preset " ++ sq ++ "Bogus" ++ sq ++ " not found. Available: SI, CGS" ∧
    (dictGet "CGS" [("SI", [("kilogram", "kilogram")]), ("CGS", [("kilogram", "gram")])]
        = some [("kilogram", "gram")] ∧
      get_preset "CGS" [("SI", [("kilogram", "kilogram")]), ("CGS", [("kilogram", "gram")])] =
        Except.ok ⟨"CGS", [("kilogram", "gram")], ""⟩) :=
  ⟨⟨rfl, (get_preset_spec _ "Bogus").1 rfl⟩, rfl, ⟨rfl, (get_preset_spec _ "CGS").2 _ rfl⟩⟩

/-- C4 counterexample: two caller keys resolving to the same dimension
identifier make the claim fail as stated; with input kg mapped to gram and g
mapped to pound, both resolve to the mass dimension and the later entry
overwrites the earlier one, so the kg entry is not mapped to gram. -/
theorem uniUnit_init_collision :
    normalizeSpec [("kg", "gram"), ("g", "pound")] = [("[mass]", "pound")] ∧
    ¬ (∀ p ∈ ([("kg", "gram"), ("g", "pound")] : List (String × String)),
        dictGet (canonKey p.1) (normalizeSpec [("kg", "gram"), ("g", "pound")]) = some p.2) :=
  ⟨rfl, by decide⟩

/-- C4 (amended): when the caller keys resolve to pairwise distinct canonical
dimension identifiers, the stored specification maps each canonical
identifier of a key to its target unchanged and holds no other entries; when
two keys collide, the later entry overwrites the earlier. -/
theorem uniUnit_init_spec (udict : List (String × String))
    (hnd : (udict.map (fun p => canonKey p.1)).Nodup) :
    (∀ p ∈ udict, dictGet (canonKey p.1) (normalizeSpec udict) = some p.2) ∧
    (∀ d v, dictGet d (normalizeSpec udict) = some v →
      ∃ k, (k, v) ∈ udict ∧ canonKey k = d) := by
  constructor
  · exact fun p hp => norm_foldl_mem udict hnd [] p hp
  · intro d v h
    rcases norm_foldl_lookup udict [] d v h with h1 | h2
    · exact h1
    · simp [dictGet] at h2

/-- Witness for C4 (amended): a two-key mapping with distinct dimensions is
stored as the corresponding canonical entries. -/
theorem uniUnit_init_spec_witness :
    ((([("kg", "gram"), ("m", "centimeter")] : List (String × String)).map
        (fun p => canonKey p.1)).Nodup) ∧
    dictGet (canonKey "kg") (normalizeSpec [("kg", "gram"), ("m", "centimeter")])
      = some "gram" :=
  ⟨by decide,
    (uniUnit_init_spec [("kg", "gram"), ("m", "centimeter")] (by decide)).1
      ("kg", "gram") (by decide)⟩

/-- C5: the code synthesis get_new_unit equals the specification-worded
synthesis for every conversion specification and unit: the target composite
unit is the product over the sorted (dimension, exponent) pairs of the
dimension signature of the parsed target name (specification first, then
default short names, then bracket stripping) raised to the exponent. -/
theorem get_new_unit_eq_synthesizeBySpec (spec : List (String × String)) (u : UC) :
    get_new_unit spec u = synthesizeBySpec spec (dimOf u) := by
  rw [get_new_unit, getTargetUnit, getTargetUnitAux_eq_foldl, synthesizeBySpec]

/-- C6: the per-instance target unit cache is pure memoization. Whenever
every cache entry agrees with recomputation, a call returns exactly the
cacheless recomputation, the updated cache again agrees with recomputation,
and an immediately repeated identical call returns the identical result. -/
theorem getTargetUnitCached_memo (spec : List (String × String)) (cache : TargetCache)
    (sig : UC) (hwf : CacheWF spec cache) :
    (getTargetUnitCached spec cache sig).1 = getTargetUnit spec sig ∧
    CacheWF spec (getTargetUnitCached spec cache sig).2 ∧
    (getTargetUnitCached spec (getTargetUnitCached spec cache sig).2 sig).1 =
      (getTargetUnitCached spec cache sig).1 := by
  cases h : dictGet sig cache with
  | some u =>
    have hu : getTargetUnit spec sig = some u := hwf _ (dictGet_mem h)
    have heq : getTargetUnitCached spec cache sig = (some u, cache) := by
      simp [getTargetUnitCached, h]
    rw [heq]
    exact ⟨hu.symm, hwf, by simp [getTargetUnitCached, h]⟩
  | none =>
    cases hg : getTargetUnit spec sig with
    | some u =>
      have heq : getTargetUnitCached spec cache sig = (some u, dictInsert sig u cache) := by
        simp [getTargetUnitCached, h, hg]
      rw [heq]
      refine ⟨rfl, ?_, ?_⟩
      · intro p hp
        rcases mem_dictInsert hp with h1 | h2
        · rw [h1]
          exact hg
        · exact hwf _ h2
      · simp [getTargetUnitCached, dictGet_dictInsert_self]
    | none =>
      have heq : getTargetUnitCached spec cache sig = (none, cache) := by
        simp [getTargetUnitCached, h, hg]
      rw [heq]
      exact ⟨rfl, hwf, by simp [getTargetUnitCached, h, hg]⟩

/-- Witness for C6: the empty cache is coherent, and a first call on the mass
signature returns the recomputed gram target while keeping the cache
coherent and repeatable. -/
theorem getTargetUnitCached_memo_witness :
    CacheWF (normalizeSpec [("kilogram", "gram")]) [] ∧
    ((getTargetUnitCached (normalizeSpec [("kilogram", "gram")]) [] [("[mass]", 1)]).1 =
        getTargetUnit (normalizeSpec [("kilogram", "gram")]) [("[mass]", 1)] ∧
      CacheWF (normalizeSpec [("kilogram", "gram")])
        (getTargetUnitCached (normalizeSpec [("kilogram", "gram")]) [] [("[mass]", 1)]).2 ∧
      (getTargetUnitCached (normalizeSpec [("kilogram", "gram")])
          (getTargetUnitCached (normalizeSpec [("kilogram", "gram")]) [] [("[mass]", 1)]).2
          [("[mass]", 1)]).1 =
        (getTargetUnitCached (normalizeSpec [("kilogram", "gram")]) [] [("[mass]", 1)]).1) :=
  ⟨by simp [CacheWF], getTargetUnitCached_memo _ _ _ (by simp [CacheWF])⟩

/-- C7: converting a list converts each element in original order into a list
of the same length, with the i-th output the conversion of the i-th input,
and the empty list converts to the empty list. -/
theorem to_unit_list_elementwise (spec : List (String × String)) (items out : List UInput) :
    (to_unit spec (UInput.list items) = some (UInput.list out) →
      out.length = items.length ∧
      ∀ (i : Nat) (hi : i < items.length) (ho : i < out.length),
        to_unit spec (items.get ⟨i, hi⟩) = some (out.get ⟨i, ho⟩)) ∧
    to_unit spec (UInput.list []) = some (UInput.list []) := by
  constructor
  · intro h
    rw [to_unit] at h
    obtain ⟨mids, hmids, hout⟩ := Option.map_eq_some'.1 h
    have hmo : mids = out := by injection hout
    subst hmo
    exact to_unitList_elems spec _ _ hmids
  · rfl

/-- Witness for C7: a two-element list (a bare number and 2 kilograms)
converts element-wise to the number and 2000 grams. -/
theorem to_unit_list_elementwise_witness :
    to_unit (normalizeSpec [("kilogram", "gram")])
        (UInput.list [UInput.num 3, UInput.qty ⟨2, [("kilogram", 1)]⟩]) =
      some (UInput.list [UInput.num 3, UInput.qty ⟨2000, [("gram", 1)]⟩]) ∧
    ([UInput.num 3, UInput.qty ⟨2000, [("gram", 1)]⟩].length =
        [UInput.num 3, UInput.qty ⟨2, [("kilogram", 1)]⟩].length ∧
      ∀ (i : Nat) (hi : i < [UInput.num 3, UInput.qty ⟨2, [("kilogram", 1)]⟩].length)
        (ho : i < [UInput.num 3, UInput.qty ⟨2000, [("gram", 1)]⟩].length),
        to_unit (normalizeSpec [("kilogram", "gram")])
            ([UInput.num 3, UInput.qty ⟨2, [("kilogram", 1)]⟩].get ⟨i, hi⟩) =
          some ([UInput.num 3, UInput.qty ⟨2000, [("gram", 1)]⟩].get ⟨i, ho⟩)) :=
  ⟨rfl, (to_unit_list_elementwise _ _ _).1 rfl⟩

/-- C8: on a quantity of magnitude 1 the special code path returns exactly
what the dominant general path returns, namely the quantity converted to the
synthesized target unit, so the special case never changes the observable
outcome. In pint the conversion routine always returns a quantity, so the
isinstance test inside the special branch always succeeds. -/
theorem to_unit_magnitude_one_uniform (spec : List (String × String)) (q : Quantity)
    (h : q.mag = 1) :
    to_unit spec (UInput.qty q) =
      (get_new_unit spec q.units).bind
        (fun target => (q.convertTo target).map UInput.qty) :=
  to_unit_qty spec q

/-- Witness for C8: one kilogram under the gram specification goes through
the general path and yields 1000 grams. -/
theorem to_unit_magnitude_one_uniform_witness :
    (⟨1, [("kilogram", 1)]⟩ : Quantity).mag = 1 ∧
    to_unit (normalizeSpec [("kilogram", "gram")])
        (UInput.qty ⟨1, [("kilogram", 1)]⟩) =
      (get_new_unit (normalizeSpec [("kilogram", "gram")]) [("kilogram", 1)]).bind
        (fun target =>
          ((⟨1, [("kilogram", 1)]⟩ : Quantity).convertTo target).map UInput.qty) :=
  ⟨rfl, to_unit_magnitude_one_uniform _ _ rfl⟩

/-- C9: a bare number is returned unchanged by the convert operation, for
every conversion specification. -/
theorem to_unit_bare_number (spec : List (String × String)) (x : ℚ) :
    to_unit spec (UInput.num x) = some (UInput.num x) :=
  rfl

/-- C10 supporting facts: get_conversion_factor returns 1 whenever its
argument is not a key of the stored specification or any step of the factor
computation fails; and for a specification built only from keys listed in the
short or full name table, every stored key is a bracketed dimension
identifier, so every non-bracketed unit name (one whose first character is
not the opening bracket) misses the specification and yields 1. -/
theorem get_conversion_factor_spec (udict : List (String × String))
    (hkeys : ∀ p ∈ udict, (dictGet p.1 SHORT_TO_DIMENSION).isSome = true)
    (name : String) (hname : name.toList.head? ≠ some (Char.ofNat 91)) :
    get_conversion_factor (normalizeSpec udict) name = 1 ∧
    (∀ (spec2 : List (String × String)) (nm : String),
      (dictGet nm spec2 = none → get_conversion_factor spec2 nm = 1) ∧
      (∀ target, dictGet nm spec2 = some target → parseUnit nm = none →
        get_conversion_factor spec2 nm = 1) ∧
      (∀ target, dictGet nm spec2 = some target → parseUnit target = none →
        get_conversion_factor spec2 nm = 1) ∧
      (∀ target bu tu, dictGet nm spec2 = some target → parseUnit nm = some bu →
        parseUnit target = some tu → Quantity.convertTo ⟨1, bu⟩ tu = none →
        get_conversion_factor spec2 nm = 1)) := by
  constructor
  · have hnone : dictGet name (normalizeSpec udict) = none :=
      normalizeSpec_bracket_keys udict hkeys name hname
    simp [get_conversion_factor, hnone]
  · intro spec2 nm
    refine ⟨?_, ?_, ?_, ?_⟩
    · intro h
      simp [get_conversion_factor, h]
    · intro target h1 h2
      simp [get_conversion_factor, h1, h2]
    · intro target h1 h2
      cases hb : parseUnit nm with
      | none => simp [get_conversion_factor, h1, hb]
      | some bu => simp [get_conversion_factor, h1, hb, h2]
    · intro target bu tu h1 h2 h3 h4
      simp [get_conversion_factor, h1, h2, h3, h4]

/-- Witness for C10: the specification built from the short key kg stores
only the bracketed mass identifier, so the plain name kilogram is not a key
and the factor is 1. -/
theorem get_conversion_factor_spec_witness :
    (∀ p ∈ ([("kg", "gram")] : List (String × String)),
      (dictGet p.1 SHORT_TO_DIMENSION).isSome = true) ∧
    ("kilogram".toList.head? ≠ some (Char.ofNat 91)) ∧
    get_conversion_factor (normalizeSpec [("kg", "gram")]) "kilogram" = 1 :=
  ⟨by decide, by decide,
    (get_conversion_factor_spec [("kg", "gram")] (by decide) "kilogram" (by decide)).1⟩

end UniUnit
